import Mathlib

/-!
# Verification of the connectors-py reconciliation and streaming core

Shallow embedding of `src/connectors/services/job_cleanup.py` and
`src/connectors/sources/network_drive.py`, with the external registry and
identity interfaces (declared in the spec's §4.2/§6 but whose implementation
lives outside `src/`) modelled from the spec.  Definitions come first, the
theorems about them after.
-/

/-- A connector record, as read from the connector registry
(spec §3: id, service type; other fields are irrelevant to the sweeps). -/
structure Connector where
  id : String
  serviceType : String
  deriving DecidableEq, Repr

/-- Job status, spec §3. -/
inductive JobStatus where
  | pending | in_progress | suspended | canceled | completed | error
  deriving DecidableEq, Repr

/-- A sync-job record (spec §3: job id, connector id, target content-index
name, status, last-update timestamp). Timestamps are abstract `Nat` ticks. -/
structure SyncJob where
  jobId : String
  connectorId : String
  indexName : Option String
  status : JobStatus
  lastUpdate : Nat
  deriving DecidableEq, Repr

/-- The registry state visible to one sweep: connector registry contents, job
registry contents, the current time, the staleness window, and the service's
configured allow-lists (`native_service_types`, `connectors_ids`). -/
structure RegistryState where
  connectors : List Connector
  jobs : List SyncJob
  now : Nat
  staleWindow : Nat
  nativeServiceTypes : List String
  connectorsIds : List String
  deriving Repr

/-- The fixed error message `STUCK_JOB_ERROR` (job_cleanup.py line 14). -/
def STUCK_JOB_ERROR : String := "The job has not seen any update for some time."

/-- Modelled from the spec: `ConnectorIndex.all_connectors` (connectors.byoc,
not under src/) — lazy iteration over every connector in the registry. -/
def all_connectors (s : RegistryState) : List Connector := s.connectors

/-- Modelled from the spec: `ConnectorIndex.supported_connectors`
(connectors.byoc, not under src/) — connectors "filtered by native-type
allow-list and explicit id allow-list" (spec §4.2, §4.1: "matching a
configured allow-list of native service types or explicit ids"). -/
def supported_connectors (s : RegistryState) : List Connector :=
  s.connectors.filter fun c =>
    c.serviceType ∈ s.nativeServiceTypes ∨ c.id ∈ s.connectorsIds

/-- Modelled from the spec: `SyncJobIndex.orphaned_jobs` (connectors.byoc,
not under src/) — jobs whose connector id is absent from the given id set
(spec §3 invariant: a job is "orphaned" iff its connector id is absent from
the current connector id set). -/
def orphaned_jobs (s : RegistryState) (connectorIds : List String) : List SyncJob :=
  s.jobs.filter fun j => j.connectorId ∉ connectorIds

/-- A job is stale iff no status update occurred within the staleness window
(spec §3: "stuck iff no status update occurred within a configurable
staleness window"; §8: "stale beyond the staleness window"). -/
def isStale (s : RegistryState) (j : SyncJob) : Prop :=
  j.lastUpdate + s.staleWindow < s.now

instance (s : RegistryState) (j : SyncJob) : Decidable (isStale s j) := by
  unfold isStale; infer_instance

/-- Modelled from the spec: `SyncJobIndex.stuck_jobs` (connectors.byoc, not
under src/) — jobs in scope (connector id in the given set) that are stale. -/
def stuck_jobs (s : RegistryState) (connectorIds : List String) : List SyncJob :=
  s.jobs.filter fun j => j.connectorId ∈ connectorIds ∧ isStale s j

/-- Modelled from the spec: `ConnectorIndex.fetch_by_id` (connectors.byoc,
not under src/) — fetch a connector record by id. -/
def fetch_by_id (s : RegistryState) (docId : String) : Option Connector :=
  s.connectors.find? fun c => c.id = docId

/-- `JobCleanUpService._process_orphaned_jobs` (job_cleanup.py lines 48-80):
enumerate connector ids, select orphaned jobs, collect their distinct
non-null content-index names, and — only when at least one orphaned job
exists — delete those indices and bulk-delete the job records.  Returns the
pair (content indices deleted, job ids deleted). -/
def _process_orphaned_jobs (s : RegistryState) : List String × List String :=
  if (orphaned_jobs s ((all_connectors s).map (·.id))).map (·.jobId) = [] then ([], [])
  else
    (((orphaned_jobs s ((all_connectors s).map (·.id))).filterMap (·.indexName)).dedup,
      (orphaned_jobs s ((all_connectors s).map (·.id))).map (·.jobId))

/-- Core of `JobCleanUpService._process_stuck_jobs` (job_cleanup.py lines
93-116), parameterized by the results of the registry queries it consumes:
for each stuck job, resolve the owning connector — if absent, log and skip;
otherwise invoke `connector._sync_done(job, {}, STUCK_JOB_ERROR)` and count
it as marked.  Returns the list of (job, error message) completion-transition
invocations, in order. -/
def stuck_sweep_core (stuck : List SyncJob) (fetch : String → Option Connector) :
    List (SyncJob × String) :=
  stuck.filterMap fun j =>
    match fetch j.connectorId with
    | none => none
    | some _ => some (j, STUCK_JOB_ERROR)

/-- `JobCleanUpService._process_stuck_jobs` (job_cleanup.py lines 82-123):
scope is the supported connectors' ids; the stuck-job query and the per-job
connector fetch are answered from the registry state. -/
def _process_stuck_jobs (s : RegistryState) : List (SyncJob × String) :=
  stuck_sweep_core (stuck_jobs s ((supported_connectors s).map (·.id))) (fetch_by_id s)

/-- Modelled from the spec: the connector's job-completion transition
`connector._sync_done` (connectors.byoc, not under src/) — records the error
outcome on the job; being a status update, it refreshes the job's
last-update timestamp (spec §3: "Mutated by the connector's own completion
transition"; glossary: a stuck job is one "with no status update within a
configured staleness window"). -/
def _sync_done (s : RegistryState) (j : SyncJob) : SyncJob :=
  { j with status := JobStatus.error, lastUpdate := s.now }

/-- State repair performed by one orphan sweep: the deleted job records are
gone from the job registry. -/
def apply_orphan_sweep (s : RegistryState) : RegistryState :=
  { s with jobs :=
      s.jobs.filter fun j => j.connectorId ∈ (all_connectors s).map (·.id) }

/-- State repair performed by one stuck sweep: every job the sweep marked
goes through the completion transition; all other jobs are untouched. -/
def apply_stuck_sweep_with (fetch : String → Option Connector) (s : RegistryState) :
    RegistryState :=
  { s with jobs := s.jobs.map fun j =>
      if j ∈ (stuck_sweep_core (stuck_jobs s ((supported_connectors s).map (·.id)))
          fetch).map (·.1)
      then _sync_done s j else j }

/-- State repair of `_process_stuck_jobs` with the registry answering the
per-job connector fetch. -/
def apply_stuck_sweep (s : RegistryState) : RegistryState :=
  apply_stuck_sweep_with (fetch_by_id s) s

/-- A concrete stale in-scope job used to exercise the stuck sweep. -/
def j1 : SyncJob :=
  { jobId := "j1", connectorId := "c1", indexName := none,
    status := JobStatus.in_progress, lastUpdate := 0 }

/-- A concrete registry state: one supported connector `c1` owning the stale
job `j1`. -/
def cs2 : RegistryState :=
  { connectors := [{ id := "c1", serviceType := "t" }]
  , jobs := [j1]
  , now := 100, staleWindow := 10
  , nativeServiceTypes := ["t"], connectorsIds := [] }

/-- Modelled from the spec: `connectors.access_control.prefix_identity`
(not under src/) — namespace-prefixes an identifier so that usernames and
sids live in distinct token spaces (spec §4.5). -/
def prefix_identity (pre identity : String) : String := pre ++ ":" ++ identity

/-- `_prefix_user` (network_drive.py lines 62-63). -/
def _prefix_user (user : String) : String := prefix_identity "user" user

/-- `_prefix_sid` (network_drive.py lines 66-67). -/
def _prefix_sid (sid : String) : String := prefix_identity "sid" sid

/-- `ACCESS_ALLOWED_TYPE` (network_drive.py line 49). -/
def ACCESS_ALLOWED_TYPE : Nat := 0

/-- `ACCESS_MASK_DENIED_WRITE_PERMISSION` (network_drive.py line 50). -/
def ACCESS_MASK_DENIED_WRITE_PERMISSION : Nat := 278

/-- `DEFAULT_FILE_SIZE_LIMIT` (network_drive.py line 57). -/
def DEFAULT_FILE_SIZE_LIMIT : Nat := 10485760

/-- Modelled from the spec: the name of the access-control field
(`connectors.access_control.ACCESS_CONTROL`, not under src/). -/
def ACCESS_CONTROL : String := "_allow_access_control"

/-- Python `str.replace("\\", "/")` on a character list. -/
def replaceSep (cs : List Char) : List Char :=
  cs.map fun c => if c = '\\' then '/' else c

/-- The characters after the first `'/'`, if any — the tail of Python
`s.split("/", 1)`; `none` when the split produces a single element and
indexing `[1]` would raise `IndexError`. -/
def afterFirstSlash : List Char → Option (List Char)
  | [] => none
  | c :: rest => if c = '/' then some rest else afterFirstSlash rest

/-- `path.split("/", 1)[1].replace("\\", "/")` (network_drive.py line 298):
the path's suffix after its first slash, with backslashes replaced by
slashes; `none` models the `IndexError` on a path with no slash. -/
def normalizePath (p : String) : Option String :=
  (afterFirstSlash p.toList).map fun cs => String.mk (replaceSep cs)

/-- `rule["pattern"].replace("\\", "/")` (network_drive.py line 296). -/
def stringReplaceSep (s : String) : String := String.mk (replaceSep s.toList)

/-- Fuel-indexed glob matcher over characters, modelling
`wcmatch.glob.globmatch(path, pattern, flags=glob.GLOBSTAR)` for the pattern
features the connector's rules use: literal characters, `?` and `*` (which
do not cross `/`), and the recursive `**` (which does).  Character classes
and extended glob syntax are not modelled.  The fuel strictly bounds the
recursion; every call consumes a pattern token or a path character. -/
def globMatchAux : Nat → List Char → List Char → Bool
  | 0, _, _ => false
  | _ + 1, [], s => s.isEmpty
  | fuel + 1, '*' :: '*' :: ps, s =>
      globMatchAux fuel ps s ||
        (match s with
         | [] => false
         | _ :: s' => globMatchAux fuel ('*' :: '*' :: ps) s')
  | fuel + 1, '*' :: ps, s =>
      globMatchAux fuel ps s ||
        (match s with
         | [] => false
         | c :: s' => c ≠ '/' && globMatchAux fuel ('*' :: ps) s')
  | fuel + 1, '?' :: ps, s =>
      (match s with
       | [] => false
       | c :: s' => c ≠ '/' && globMatchAux fuel ps s')
  | fuel + 1, c :: ps, s =>
      (match s with
       | [] => false
       | c' :: s' => c = c' && globMatchAux fuel ps s')

/-- `glob.globmatch(normalized_path, glob_pattern, flags=glob.GLOBSTAR)`
(network_drive.py lines 299-301). -/
def globMatch (path pattern : String) : Bool :=
  globMatchAux (pattern.length + path.length + 1) pattern.toList path.toList

/-- One advanced rule: a single glob pattern string (spec §3). -/
structure Rule where
  pattern : String
  deriving DecidableEq, Repr

/-- The inner loop of `find_matching_paths` for one rule (network_drive.py
lines 295-305): test the rule's pattern against every cached path's
normalized form, collecting the matching raw paths and whether any path
matched; `none` models the `IndexError` raised while normalizing a path
with no slash. -/
def scan_paths : List String → String → Option (Bool × List String)
  | [], _ => some (false, [])
  | p :: rest, pat =>
    match normalizePath p with
    | none => none
    | some np =>
      match scan_paths rest pat with
      | none => none
      | some (v, acc) =>
        if globMatch np pat then some (true, p :: acc) else some (v, acc)

/-- `NASDataSource.find_matching_paths` (network_drive.py lines 281-308):
returns the set of matched raw paths (Python accumulates them in a `set`,
whose iteration order is unspecified; modelled as a deduplicated list) and
the list of patterns that matched no path, in rule order; `none` models the
`IndexError` on a snapshot path with no slash. -/
def find_matching_paths : List String → List Rule → Option (List String × List String)
  | _, [] => some ([], [])
  | snapshot, r :: rest =>
    match scan_paths snapshot (stringReplaceSep r.pattern) with
    | none => none
    | some vm =>
      match find_matching_paths snapshot rest with
      | none => none
      | some mi =>
        some ((vm.2 ++ mi.1).dedup,
          if vm.1 then mi.2 else r.pattern :: mi.2)

/-- The validator's verdict (connectors.filtering.validation
`SyncRuleValidationResult`; the rule id is always the fixed
`ADVANCED_RULES` marker and is omitted). -/
structure SyncRuleValidationResult where
  is_valid : Bool
  validation_message : String
  deriving DecidableEq, Repr

/-- `NetworkDriveAdvancedRulesValidator._remote_validation` (network_drive.py
lines 103-126) on shape-valid input: in this typed embedding every `Rule`
carries a pattern string, so the `fastjsonschema` shape check cannot fail
and is not modelled.  A nonempty list of patterns with no matching path
yields an invalid verdict whose message joins exactly those patterns. -/
def _remote_validation (snapshot : List String) (advanced_rules : List Rule) :
    Option SyncRuleValidationResult :=
  (find_matching_paths snapshot advanced_rules).map fun mi =>
    if mi.2 ≠ [] then
      { is_valid := false
      , validation_message :=
          "Following patterns do not match any path\x27" ++
            String.intercalate ", " mi.2 ++ "\x27" }
    else { is_valid := true, validation_message := "" }

/-- A raw directory entry as returned by `smbclient.scandir` and read from
`file._dir_info.fields` (network_drive.py lines 343-353): full path,
allocation size, file id, creation/change timestamps (kept as the already
iso-formatted strings `iso_utc` produces), directory flag, and basename. -/
structure SmbEntry where
  path : String
  allocation_size : Nat
  file_id : String
  creation_time : String
  change_time : String
  is_dir : Bool
  name : String
  deriving DecidableEq, Repr

/-- An access-control entry of a raw security descriptor (spec §3: sid, ace
type, numeric access mask). -/
structure ACE where
  ace_type : Nat
  mask : Nat
  sid : String
  deriving DecidableEq, Repr

/-- The document dictionary `get_files` yields (network_drive.py lines
345-353).  Its key set is fixed, so it is embedded as a structure: `fileId`
is the `"_id"` key, `timestamp` the `"_timestamp"` key, `ftype` the `"type"`
key; `access_control` is the optional `ACCESS_CONTROL` key, absent on a
freshly scanned document and present only after decoration. -/
structure FileDoc where
  path : String
  size : Nat
  fileId : String
  created_at : String
  timestamp : String
  ftype : String
  title : String
  access_control : Option (List String) := none
  deriving DecidableEq, Repr

/-- The state of one `NASDataSource` instance and of the remote drive it
reads: the memoized `get_directory_details` walk snapshot (its path
components), the per-directory `scandir` answer (a scan failure is logged
and yields no entries, network_drive.py lines 336-341), the per-entry raw
security-descriptor ACEs answered by `list_file_permission`, the
deployment's document-level-security feature, and the connector's
`use_document_level_security` configuration flag. -/
structure NASState where
  directory_details : List String
  scan : String → List SmbEntry
  aces : String → List ACE
  feature_dls : Bool
  use_dls : Bool

/-- `NASDataSource.get_files` (network_drive.py lines 328-353): the document
dictionaries scanned from one directory path. -/
def get_files (s : NASState) (path : String) : List FileDoc :=
  (s.scan path).map fun e =>
    { path := e.path
    , size := e.allocation_size
    , fileId := e.file_id
    , created_at := e.creation_time
    , timestamp := e.change_time
    , ftype := if e.is_dir then "folder" else "file"
    , title := e.name }

/-- `NASDataSource._dls_enabled` (network_drive.py lines 427-434): false
when the features object is absent or the deployment capability is off,
else the connector's configuration flag. -/
def _dls_enabled (s : NASState) : Bool :=
  s.feature_dls && s.use_dls

/-- `NASDataSource.get_entity_permission` (network_drive.py lines 490-518):
empty without document-level security; otherwise the prefixed sids of the
entry's ACEs whose type is access-allowed or whose mask equals the
denied-write sentinel.  The file type only selects how the handle is opened
(file vs directory flags); the descriptor query is the same. -/
def get_entity_permission (s : NASState) (file_path : String) (_file_type : String) :
    List String :=
  if _dls_enabled s then
    (s.aces file_path).filterMap fun a =>
      if a.ace_type = ACCESS_ALLOWED_TYPE
          ∨ a.mask = ACCESS_MASK_DENIED_WRITE_PERMISSION
      then some (_prefix_sid a.sid) else none
  else []

/-- `NASDataSource._decorate_with_access_control` (network_drive.py lines
436-444): with document-level security active, the document's
access-control field becomes `list(set(existing + fresh))` — modelled as the
deduplicated concatenation (Python's set iteration order is unspecified;
statements compare it as a set). -/
def _decorate_with_access_control (s : NASState) (d : FileDoc) : FileDoc :=
  if _dls_enabled s then
    { d with
      access_control := some ((d.access_control.getD [] ++
        get_entity_permission s d.path d.ftype).dedup) }
  else d

/-- How `get_docs` can abort before yielding: the `InvalidRulesError`
carrying the invalid patterns (network_drive.py lines 529-532), or the
`IndexError` escaping `find_matching_paths`. -/
inductive GetDocsErr where
  | invalid_rules (patterns : List String)
  | index_error
  deriving DecidableEq, Repr

/-- `NASDataSource.get_docs` (network_drive.py lines 520-554). Yields
(document, content-fetcher) pairs; the fetcher `partial(self.get_content,
file)` is represented by the document it captures, absent for folders.
With advanced rules: resolve them against the walk snapshot, abort with
`InvalidRulesError` before any yield if some pattern matched no path, else
stream the matched paths' files undecorated.  Without advanced rules:
stream every snapshot path's files, each decorated with access control
(decoration happens before `partial` captures the document). -/
def get_docs (s : NASState) (filtering : Option (List Rule)) :
    Except GetDocsErr (List (FileDoc × Option FileDoc)) :=
  match filtering with
  | some rules =>
    if rules.isEmpty then
      Except.ok (s.directory_details.flatMap fun p =>
        (get_files s p).map fun f =>
          if f.ftype = "folder" then (_decorate_with_access_control s f, none)
          else (_decorate_with_access_control s f,
            some (_decorate_with_access_control s f)))
    else
      match find_matching_paths s.directory_details rules with
      | none => Except.error GetDocsErr.index_error
      | some mi =>
        if mi.2 ≠ [] then Except.error (GetDocsErr.invalid_rules mi.2)
        else Except.ok (mi.1.flatMap fun p =>
          (get_files s p).map fun f =>
            if f.ftype = "folder" then (f, none) else (f, some f))
  | none =>
    Except.ok (s.directory_details.flatMap fun p =>
      (get_files s p).map fun f =>
        if f.ftype = "folder" then (_decorate_with_access_control s f, none)
        else (_decorate_with_access_control s f,
          some (_decorate_with_access_control s f)))

/-- A Python value as stored in a document dictionary. -/
inductive Val where
  | str : String → Val
  | int : Int → Val
  | bytes : List Nat → Val
  | strlist : List String → Val
  deriving DecidableEq, Repr

/-- A Python dictionary with string keys, as association list. -/
abbrev Doc := List (String × Val)

/-- `d[k]` lookup; `none` is a `KeyError`. -/
def getKey (d : Doc) (k : String) : Option Val :=
  (d.find? (·.1 = k)).map (·.2)

/-- The exceptions `get_content` can raise in the embedding. -/
inductive PyErr where
  | key_error (k : String)
  | attribute_error
  | type_error
  deriving DecidableEq, Repr

/-- The dictionary view of a `get_files` document (network_drive.py lines
345-353): note the id is stored under the key `"_id"`.  The access-control
key is present only after decoration. -/
def FileDoc.toDoc (f : FileDoc) : Doc :=
  [("path", Val.str f.path), ("size", Val.int (f.size : Int)),
   ("_id", Val.str f.fileId), ("created_at", Val.str f.created_at),
   ("_timestamp", Val.str f.timestamp), ("type", Val.str f.ftype),
   ("title", Val.str f.title)] ++
    (match f.access_control with
     | some l => [(ACCESS_CONTROL, Val.strlist l)]
     | none => [])

/-- Python truthiness of a stored value. -/
def truthy : Val → Bool
  | .str s => s ≠ ""
  | .int n => n ≠ 0
  | .bytes b => !b.isEmpty
  | .strlist l => !l.isEmpty

/-- Python `str.lower()`, character by character. -/
def lowerString (s : String) : String :=
  String.mk (s.toList.map Char.toLower)

/-- `os.path.splitext(title)[-1]` for a basename (no path separators): the
suffix from the last dot, empty when there is no dot or only leading dots
precede it. -/
def extOf (title : String) : String :=
  let rev := title.toList.reverse
  match rev.dropWhile (· ≠ '.') with
  | [] => ""
  | _ :: revRoot =>
    if revRoot.all (· = '.') then ""
    else String.mk ('.' :: (rev.takeWhile (· ≠ '.')).reverse)

/-- `NASDataSource.get_content` (network_drive.py lines 376-412), with the
evaluation order and dictionary accesses of the source.  `tika` stands for
the `TIKA_SUPPORTED_FILETYPES` allow-list of lowercase extensions
(connectors.utils, not under src/).  `fetch` is the outcome of
`fetch_file_content` (lines 355-374): `some` buffer, or `none` when the
chunked read raised `SMBOSError`, which that method catches, logs, and
turns into an implicit `None` return.  `content.read()` on that `None`
raises `AttributeError`.  The base64 encoding of `get_base64_value`
(connectors.utils, not under src/) is kept as the raw byte payload.
Returns (oversize warning emitted, content document or None). -/
def get_content (tika : List String) (fetch : String → Option (List Nat))
    (file : Doc) (doit : Bool) : Except PyErr (Bool × Option Doc) :=
  if !doit then .ok (false, none)
  else
    match getKey file "title" with
    | none => .error (.key_error "title")
    | some (.str title) =>
      if lowerString (extOf title) ∉ tika then .ok (false, none)
      else
        match getKey file "size" with
        | none => .error (.key_error "size")
        | some sv =>
          if !truthy sv then .ok (false, none)
          else
            match sv with
            | .int size =>
              if size > (DEFAULT_FILE_SIZE_LIMIT : Int) then .ok (true, none)
              else
                match getKey file "path" with
                | none => .error (.key_error "path")
                | some (.str path) =>
                  match fetch path with
                  | none => .error .attribute_error
                  | some content =>
                    match getKey file "id" with
                    | none => .error (.key_error "id")
                    | some idv =>
                      match getKey file "_timestamp" with
                      | none => .error (.key_error "_timestamp")
                      | some ts =>
                        .ok (false, some [("_id", idv), ("_timestamp", ts),
                          ("_attachment", .bytes content)])
                | some _ => .error .type_error
            | _ => .error .type_error
    | some _ => .error .type_error

/-- An identity document (spec §3): id = sid, prefixed identity fields, and
the access-control token list that `es_access_control_query`
(connectors.access_control, not under src/) merges into the document —
modelled from the spec as the `access_control` field. -/
structure IdentityDoc where
  docId : String
  username : String
  user_id : String
  access_control : List String
  deriving DecidableEq, Repr

/-- The group loop of `_user_access_control_doc` (network_drive.py lines
451-455): for each group, look its member map up (`groups_members.get`
returning `None` would make `members.values()` raise, modelled as `none`)
and collect the prefixed group sid whenever the user's sid is among the
member map's values. -/
def sid_groups_of (sid : String)
    (groups_members : List (String × List (String × String))) :
    List (String × String) → Option (List String)
  | [] => some []
  | gi :: rest =>
    match (groups_members.find? (·.1 = gi.1)).map (·.2) with
    | none => none
    | some members =>
      (sid_groups_of sid groups_members rest).map fun acc =>
        if (members.map (·.2)).contains sid then _prefix_sid gi.2 :: acc else acc

/-- `NASDataSource._user_access_control_doc` (network_drive.py lines
446-466): access control is `[prefixed sid, prefixed username, *group
sids]`; dictionaries are association lists in insertion order. -/
def _user_access_control_doc (user sid : String)
    (groups_info : List (String × String))
    (groups_members : List (String × List (String × String))) :
    Option IdentityDoc :=
  (sid_groups_of sid groups_members groups_info).map fun sid_groups =>
    { docId := sid
    , username := _prefix_user user
    , user_id := _prefix_sid sid
    , access_control := _prefix_sid sid :: _prefix_user user :: sid_groups }

/-- A concrete file document in the shape `get_files` yields: the id lives
under the `"_id"` key of its dictionary view. -/
def nasFile (sz : Nat) : FileDoc :=
  { path := "srv/docs\\sub\\a.txt", size := sz, fileId := "F1"
  , created_at := "2023-01-01T00:00:00Z", timestamp := "2023-01-02T00:00:00Z"
  , ftype := "file", title := "a.txt" }

/-- Whether a rule's pattern matches at least one cached path, each path
taken in its normalized form. -/
def rule_has_match (snapshot : List String) (r : Rule) : Bool :=
  snapshot.any fun p =>
    match normalizePath p with
    | none => false
    | some np => globMatch np (stringReplaceSep r.pattern)

/-- The single file entry of the concrete drive state. -/
def e1 : SmbEntry :=
  { path := "srv/docs\\sub\\a.txt", allocation_size := 5, file_id := "F1"
  , creation_time := "2023-01-01T00:00:00Z", change_time := "2023-01-02T00:00:00Z"
  , is_dir := false, name := "a.txt" }

/-- The document `get_files` builds from `e1`. -/
def nasF1 : FileDoc :=
  { path := "srv/docs\\sub\\a.txt", size := 5, fileId := "F1"
  , created_at := "2023-01-01T00:00:00Z", timestamp := "2023-01-02T00:00:00Z"
  , ftype := "file", title := "a.txt" }

/-- A concrete source state: document-level security fully enabled, one walk
path "srv/docs\\sub" holding the single file `e1`, whose security descriptor
carries one access-allowed ACE for sid "S-9". -/
def ns1 : NASState :=
  { directory_details := ["srv/docs\\sub"]
  , scan := fun p => if p = "srv/docs\\sub" then [e1] else []
  , aces := fun p => if p = "srv/docs\\sub\\a.txt"
      then [{ ace_type := 0, mask := 1, sid := "S-9" }] else []
  , feature_dls := true, use_dls := true }

/-! ## Theorems -/

/-- Membership in the stuck sweep's completion-transition invocations. -/
theorem mem_stuck_sweep_core (stuck : List SyncJob) (fetch : String → Option Connector)
    (j : SyncJob) (m : String) :
    (j, m) ∈ stuck_sweep_core stuck fetch ↔
      j ∈ stuck ∧ (fetch j.connectorId).isSome ∧ m = STUCK_JOB_ERROR := by
  unfold stuck_sweep_core
  rw [List.mem_filterMap]
  constructor
  · rintro ⟨a, ha, hmatch⟩
    cases hfa : fetch a.connectorId with
    | none => rw [hfa] at hmatch; simp at hmatch
    | some c =>
      rw [hfa] at hmatch
      simp only [Option.some.injEq, Prod.mk.injEq] at hmatch
      obtain ⟨rfl, rfl⟩ := hmatch
      exact ⟨ha, by rw [hfa]; rfl, rfl⟩
  · rintro ⟨hj, hsome, rfl⟩
    refine ⟨j, hj, ?_⟩
    cases hfa : fetch j.connectorId with
    | none => rw [hfa] at hsome; simp at hsome
    | some c => rfl

/-- If a job's connector id comes from the supported-connectors scope, the
registry's fetch-by-id finds a connector for it. -/
theorem fetch_by_id_isSome_of_scope (s : RegistryState) (cid : String)
    (h : cid ∈ (supported_connectors s).map (·.id)) :
    (fetch_by_id s cid).isSome := by
  rw [List.mem_map] at h
  obtain ⟨c, hc, rfl⟩ := h
  have hc' : c ∈ s.connectors := List.mem_of_mem_filter hc
  rw [fetch_by_id, List.find?_isSome]
  exact ⟨c, hc', by simp⟩

/-- C3: one orphan sweep deletes exactly the jobs whose connector id is not
among the enumerated connector ids, and exactly the distinct non-null
content-index names those orphaned jobs reference; with no orphaned job, no
deletion of any kind is issued. -/
theorem C3_orphan_sweep_exact (s : RegistryState) :
    (∀ jid : String,
        jid ∈ (_process_orphaned_jobs s).2 ↔
          ∃ j ∈ s.jobs, j.jobId = jid ∧ j.connectorId ∉ (all_connectors s).map (·.id))
    ∧ (∀ name : String,
        name ∈ (_process_orphaned_jobs s).1 ↔
          ∃ j ∈ s.jobs, j.connectorId ∉ (all_connectors s).map (·.id)
            ∧ j.indexName = some name)
    ∧ (_process_orphaned_jobs s).1.Nodup
    ∧ (_process_orphaned_jobs s = ([], []) ↔
        orphaned_jobs s ((all_connectors s).map (·.id)) = []) := by
  unfold _process_orphaned_jobs
  by_cases h : (orphaned_jobs s ((all_connectors s).map (·.id))).map (·.jobId) = []
  · have horph : orphaned_jobs s ((all_connectors s).map (·.id)) = [] :=
      List.map_eq_nil_iff.mp h
    rw [if_pos h]
    refine ⟨?_, ?_, List.nodup_nil, by simp [horph]⟩
    · intro jid
      simp only [List.not_mem_nil, false_iff]
      rintro ⟨j, hj, rfl, hnot⟩
      have : j ∈ orphaned_jobs s ((all_connectors s).map (·.id)) := by
        rw [orphaned_jobs, List.mem_filter]
        exact ⟨hj, by simpa using hnot⟩
      rw [horph] at this
      exact absurd this (List.not_mem_nil j)
    · intro name
      simp only [List.not_mem_nil, false_iff]
      rintro ⟨j, hj, hnot, _⟩
      have : j ∈ orphaned_jobs s ((all_connectors s).map (·.id)) := by
        rw [orphaned_jobs, List.mem_filter]
        exact ⟨hj, by simpa using hnot⟩
      rw [horph] at this
      exact absurd this (List.not_mem_nil j)
  · rw [if_neg h]
    have horph : orphaned_jobs s ((all_connectors s).map (·.id)) ≠ [] := by
      intro hc; exact h (by rw [hc]; rfl)
    refine ⟨?_, ?_, List.nodup_dedup _, ?_⟩
    · intro jid
      simp only [List.mem_map]
      constructor
      · rintro ⟨j, hj, rfl⟩
        rw [orphaned_jobs, List.mem_filter] at hj
        exact ⟨j, hj.1, rfl, by simpa using hj.2⟩
      · rintro ⟨j, hj, rfl, hnot⟩
        refine ⟨j, ?_, rfl⟩
        rw [orphaned_jobs, List.mem_filter]
        exact ⟨hj, by simpa using hnot⟩
    · intro name
      rw [List.mem_dedup, List.mem_filterMap]
      constructor
      · rintro ⟨j, hj, hidx⟩
        rw [orphaned_jobs, List.mem_filter] at hj
        exact ⟨j, hj.1, by simpa using hj.2, hidx⟩
      · rintro ⟨j, hj, hnot, hidx⟩
        refine ⟨j, ?_, hidx⟩
        rw [orphaned_jobs, List.mem_filter]
        exact ⟨hj, by simpa using hnot⟩
    · constructor
      · intro hc
        have := congrArg Prod.snd hc
        simp only at this
        exact absurd this h
      · intro hc; exact absurd hc horph

/-- C9: running either sweep again after its own repairs (and nothing else)
produces zero additional side effects — the second orphan sweep issues no
deletions and the second stuck sweep marks no job. -/
theorem C9_sweeps_idempotent (s : RegistryState) :
    _process_orphaned_jobs (apply_orphan_sweep s) = ([], [])
    ∧ _process_stuck_jobs (apply_stuck_sweep s) = [] := by
  constructor
  · have horph : orphaned_jobs (apply_orphan_sweep s)
        ((all_connectors (apply_orphan_sweep s)).map (·.id)) = [] := by
      rw [orphaned_jobs, List.filter_eq_nil_iff]
      intro j hj
      simp only [apply_orphan_sweep, all_connectors, List.mem_filter] at hj
      simpa using hj.2
    rw [_process_orphaned_jobs, horph]
    simp
  · rw [_process_stuck_jobs]
    have hstuck : stuck_jobs (apply_stuck_sweep s)
        ((supported_connectors (apply_stuck_sweep s)).map (·.id)) = [] := by
      rw [stuck_jobs, List.filter_eq_nil_iff]
      intro j' hj'
      have hj'' : j' ∈ s.jobs.map fun j =>
          if j ∈ (stuck_sweep_core
              (stuck_jobs s ((supported_connectors s).map (·.id)))
              (fetch_by_id s)).map (·.1)
          then _sync_done s j else j := hj'
      obtain ⟨j, hj, rfl⟩ := List.mem_map.mp hj''
      by_cases hm : j ∈ (stuck_sweep_core
          (stuck_jobs s ((supported_connectors s).map (·.id)))
          (fetch_by_id s)).map (·.1)
      · rw [if_pos hm]
        simp only [decide_eq_true_eq, not_and]
        intro _
        show ¬isStale (apply_stuck_sweep s) (_sync_done s j)
        simp only [isStale, _sync_done]
        show ¬(s.now + _ < s.now)
        omega
      · rw [if_neg hm]
        simp only [decide_eq_true_eq, not_and]
        intro hin hstale
        have hins : j.connectorId ∈ (supported_connectors s).map (·.id) := hin
        have hstale' : isStale s j := hstale
        have hjstuck : j ∈ stuck_jobs s ((supported_connectors s).map (·.id)) := by
          rw [stuck_jobs, List.mem_filter]
          exact ⟨hj, by simp [hins, hstale']⟩
        have hsome := fetch_by_id_isSome_of_scope s j.connectorId hins
        have hcore : (j, STUCK_JOB_ERROR) ∈ stuck_sweep_core
            (stuck_jobs s ((supported_connectors s).map (·.id))) (fetch_by_id s) :=
          (mem_stuck_sweep_core _ _ _ _).mpr ⟨hjstuck, hsome, rfl⟩
        exact hm (List.mem_map.mpr ⟨(j, STUCK_JOB_ERROR), hcore, rfl⟩)
    rw [hstuck]
    rfl

/-- C2 (counterexample): the stuck sweep invokes the job-completion
transition with the message "The job has not seen any update for some
time.", not with the message "job not updated for some time" the claim
states. -/
theorem C2_counterexample :
    _process_stuck_jobs cs2 = [(j1, STUCK_JOB_ERROR)]
    ∧ STUCK_JOB_ERROR ≠ "job not updated for some time" := by
  refine ⟨?_, by decide⟩
  rfl

/-- C2 (amended): a job goes through the completion transition iff it is
among the supported connectors' jobs, stale beyond the staleness window, and
its owning connector is found by the per-job fetch; every transition carries
the error message `STUCK_JOB_ERROR` ("The job has not seen any update for
some time."); a stuck job whose connector fetch comes back empty is left
untouched in the job registry. -/
theorem C2_stuck_sweep_marks (s : RegistryState) (fetch : String → Option Connector)
    (j : SyncJob) (m : String) :
    ((j, m) ∈ stuck_sweep_core (stuck_jobs s ((supported_connectors s).map (·.id))) fetch ↔
      j ∈ s.jobs ∧ j.connectorId ∈ (supported_connectors s).map (·.id)
        ∧ isStale s j ∧ (fetch j.connectorId).isSome ∧ m = STUCK_JOB_ERROR)
    ∧ (j ∈ s.jobs → fetch j.connectorId = none →
        j ∈ (apply_stuck_sweep_with fetch s).jobs) := by
  constructor
  · rw [mem_stuck_sweep_core]
    constructor
    · rintro ⟨hstuck, hsome, rfl⟩
      rw [stuck_jobs, List.mem_filter] at hstuck
      obtain ⟨hj, hcond⟩ := hstuck
      simp only [decide_eq_true_eq] at hcond
      exact ⟨hj, hcond.1, hcond.2, hsome, rfl⟩
    · rintro ⟨hj, hin, hstale, hsome, rfl⟩
      refine ⟨?_, hsome, rfl⟩
      rw [stuck_jobs, List.mem_filter]
      exact ⟨hj, by simp [hin, hstale]⟩
  · intro hj hnone
    have hnm : j ∉ (stuck_sweep_core
        (stuck_jobs s ((supported_connectors s).map (·.id))) fetch).map (·.1) := by
      intro hmem
      obtain ⟨⟨a, m'⟩, hcore, ha⟩ := List.mem_map.mp hmem
      obtain rfl : a = j := ha
      obtain ⟨-, hsome, -⟩ := (mem_stuck_sweep_core _ _ _ _).mp hcore
      rw [hnone] at hsome
      exact absurd hsome (by simp)
    rw [apply_stuck_sweep_with]
    refine List.mem_map.mpr ⟨j, hj, ?_⟩
    rw [if_neg hnm]

/-- Witness for C2_stuck_sweep_marks at a concrete state and fetch oracle. -/
theorem C2_stuck_sweep_marks_witness :
    ((j1, STUCK_JOB_ERROR) ∈ stuck_sweep_core
        (stuck_jobs cs2 ((supported_connectors cs2).map (·.id)))
        (fun _ => none) ↔
      j1 ∈ cs2.jobs ∧ j1.connectorId ∈ (supported_connectors cs2).map (·.id)
        ∧ isStale cs2 j1
        ∧ ((fun _ => (none : Option Connector)) j1.connectorId).isSome
        ∧ STUCK_JOB_ERROR = STUCK_JOB_ERROR)
    ∧ (j1 ∈ cs2.jobs → (fun _ => (none : Option Connector)) j1.connectorId = none →
        j1 ∈ (apply_stuck_sweep_with (fun _ => none) cs2).jobs) :=
  C2_stuck_sweep_marks cs2 (fun _ => none) j1 STUCK_JOB_ERROR

/-- C8: user "alice" (sid "S-1-1") who is a member of exactly the group
"eng" (sid "S-2-1") yields an identity document with id "S-1-1" whose
access-control token set is exactly the prefixed sid, the prefixed
username, and the group's prefixed sid, the username and sid tokens lying
in distinct namespaces. -/
theorem C8_user_access_control_doc :
    _user_access_control_doc "alice" "S-1-1" [("eng", "S-2-1")]
        [("eng", [("alice", "S-1-1")])] =
      some { docId := "S-1-1", username := _prefix_user "alice"
           , user_id := _prefix_sid "S-1-1"
           , access_control := [_prefix_sid "S-1-1", _prefix_user "alice",
               _prefix_sid "S-2-1"] }
    ∧ [_prefix_sid "S-1-1", _prefix_user "alice", _prefix_sid "S-2-1"].toFinset
        = ({"sid:S-1-1", "user:alice", "sid:S-2-1"} : Finset String)
    ∧ _prefix_user "alice" ≠ _prefix_sid "S-1-1"
    ∧ _prefix_user "alice" ≠ _prefix_sid "S-2-1"
    ∧ _prefix_user "alice" ≠ _prefix_sid "alice" := by
  exact ⟨rfl, by decide, by decide, by decide, by decide⟩

/-- C4: the gating of `get_content` holds (no fetch request, non-allow-listed
extension, zero size, or size 10485761 all return no result — the oversized
file with the warning and without consulting the fetch), but on the
10485760-byte success path the code raises `KeyError: "id"`, because
`get_files` stores the id under `"_id"` while `get_content` reads
`file["id"]` (network_drive.py lines 348 and 409): no content document is
returned. -/
theorem C4_get_content_gating_and_id_key_error :
    (∀ fetch : String → Option (List Nat),
      get_content [".txt"] fetch (nasFile 10485761).toDoc true
        = Except.ok (true, none))
    ∧ (∀ fetch : String → Option (List Nat),
      get_content [".txt"] fetch (nasFile 10485760).toDoc false
        = Except.ok (false, none))
    ∧ (∀ fetch : String → Option (List Nat),
      get_content [".png"] fetch (nasFile 10485760).toDoc true
        = Except.ok (false, none))
    ∧ (∀ fetch : String → Option (List Nat),
      get_content [".txt"] fetch (nasFile 0).toDoc true
        = Except.ok (false, none))
    ∧ get_content [".txt"] (fun _ => some [104, 105]) (nasFile 10485760).toDoc true
        = Except.error (PyErr.key_error "id") := by
  exact ⟨fun _ => rfl, fun _ => rfl, fun _ => rfl, fun _ => rfl, rfl⟩

/-- C5: when the chunked read of a gated, allow-listed, non-oversized file
fails (`fetch_file_content` catches `SMBOSError`, logs, and returns `None`),
`get_content` calls `.read()` on that `None` and raises `AttributeError`
instead of returning an empty or absent result. -/
theorem C5_read_failure_raises :
    get_content [".txt"] (fun _ => none) (nasFile 5).toDoc true
      = Except.error PyErr.attribute_error
    ∧ ∀ r : Bool × Option Doc,
        get_content [".txt"] (fun _ => none) (nasFile 5).toDoc true ≠ Except.ok r := by
  refine ⟨rfl, fun r h => ?_⟩
  rw [show get_content [".txt"] (fun _ => none) (nasFile 5).toDoc true
      = Except.error PyErr.attribute_error from rfl] at h
  exact absurd h (by simp)

theorem afterFirstSlash_eq_none (cs : List Char) :
    afterFirstSlash cs = none ↔ '/' ∉ cs := by
  induction cs with
  | nil => simp [afterFirstSlash]
  | cons c rest ih =>
    by_cases hc : c = '/'
    · subst hc
      simp [afterFirstSlash]
    · simp only [afterFirstSlash, if_neg hc, ih, List.mem_cons, not_or]
      constructor
      · intro h; exact ⟨fun hh => hc hh.symm, h⟩
      · intro h; exact h.2

theorem afterFirstSlash_eq_some (cs b : List Char) :
    afterFirstSlash cs = some b ↔ ∃ a, cs = a ++ '/' :: b ∧ '/' ∉ a := by
  induction cs with
  | nil =>
    simp only [afterFirstSlash]
    constructor
    · intro h; cases h
    · rintro ⟨a, ha, -⟩
      exact absurd ha.symm (by simp)
  | cons c rest ih =>
    by_cases hc : c = '/'
    · subst hc
      have hred : afterFirstSlash ('/' :: rest) = some rest := by
        unfold afterFirstSlash
        exact if_pos rfl
      rw [hred, Option.some.injEq]
      constructor
      · rintro rfl
        exact ⟨[], rfl, by simp⟩
      · rintro ⟨a, ha, hna⟩
        cases a with
        | nil => simpa using ha
        | cons x a' =>
          simp only [List.cons_append, List.cons.injEq] at ha
          obtain ⟨hx, -⟩ := ha
          exact absurd (hx ▸ List.mem_cons_self x a') hna
    · have hred : afterFirstSlash (c :: rest) = afterFirstSlash rest := by
        show (if c = '/' then some rest else afterFirstSlash rest) = afterFirstSlash rest
        exact if_neg hc
      rw [hred, ih]
      constructor
      · rintro ⟨a, rfl, hna⟩
        refine ⟨c :: a, rfl, ?_⟩
        simp only [List.mem_cons, not_or]
        exact ⟨fun hh => hc hh.symm, hna⟩
      · rintro ⟨a, ha, hna⟩
        cases a with
        | nil =>
          simp only [List.nil_append, List.cons.injEq] at ha
          exact absurd ha.1 hc
        | cons x a' =>
          simp only [List.cons_append, List.cons.injEq] at ha
          obtain ⟨rfl, hrest⟩ := ha
          exact ⟨a', hrest, fun h => hna (List.mem_cons_of_mem _ h)⟩

theorem normalizePath_eq_none (p : String) :
    normalizePath p = none ↔ '/' ∉ p.toList := by
  rw [normalizePath, Option.map_eq_none', afterFirstSlash_eq_none]

theorem normalizePath_eq_some (p q : String) :
    normalizePath p = some q ↔
      ∃ a b : List Char, p.toList = a ++ '/' :: b ∧ '/' ∉ a
        ∧ q = String.mk (replaceSep b) := by
  rw [normalizePath, Option.map_eq_some']
  constructor
  · rintro ⟨b, hb, rfl⟩
    obtain ⟨a, ha, hna⟩ := (afterFirstSlash_eq_some _ _).mp hb
    exact ⟨a, b, ha, hna, rfl⟩
  · rintro ⟨a, b, ha, hna, rfl⟩
    exact ⟨b, (afterFirstSlash_eq_some _ _).mpr ⟨a, ha, hna⟩, rfl⟩

theorem scan_paths_eq_none (snapshot : List String) (pat : String) :
    scan_paths snapshot pat = none ↔ ∃ p ∈ snapshot, normalizePath p = none := by
  induction snapshot with
  | nil => simp [scan_paths]
  | cons p rest ih =>
    cases hp : normalizePath p with
    | none =>
      have hL : scan_paths (p :: rest) pat = none := by
        simp [scan_paths, hp]
      rw [hL]
      exact iff_of_true rfl ⟨p, List.mem_cons_self p rest, hp⟩
    | some np =>
      cases hs : scan_paths rest pat with
      | none =>
        have hL : scan_paths (p :: rest) pat = none := by
          simp [scan_paths, hp, hs]
        rw [hL]
        obtain ⟨p', hp', hnone⟩ := ih.mp hs
        exact iff_of_true rfl ⟨p', List.mem_cons_of_mem _ hp', hnone⟩
      | some vm =>
        obtain ⟨v, acc⟩ := vm
        have hL : scan_paths (p :: rest) pat =
            if globMatch np pat then some (true, p :: acc) else some (v, acc) := by
          simp [scan_paths, hp, hs]
        rw [hL]
        refine iff_of_false (by split <;> simp) ?_
        rintro ⟨p', hp', hnone⟩
        rcases List.mem_cons.mp hp' with rfl | hmem
        · rw [hp] at hnone; cases hnone
        · exact absurd (ih.mpr ⟨p', hmem, hnone⟩) (by rw [hs]; simp)

theorem find_matching_paths_eq_none (snapshot : List String) (rules : List Rule) :
    find_matching_paths snapshot rules = none ↔
      rules ≠ [] ∧ ∃ p ∈ snapshot, normalizePath p = none := by
  induction rules with
  | nil => simp [find_matching_paths]
  | cons r rest ih =>
    cases hs : scan_paths snapshot (stringReplaceSep r.pattern) with
    | none =>
      have hL : find_matching_paths snapshot (r :: rest) = none := by
        simp [find_matching_paths, hs]
      rw [hL]
      exact iff_of_true rfl
        ⟨List.cons_ne_nil r rest, (scan_paths_eq_none _ _).mp hs⟩
    | some vm =>
      cases hf : find_matching_paths snapshot rest with
      | none =>
        have hL : find_matching_paths snapshot (r :: rest) = none := by
          simp [find_matching_paths, hs, hf]
        rw [hL]
        obtain ⟨-, hbad⟩ := ih.mp hf
        exact iff_of_true rfl ⟨List.cons_ne_nil r rest, hbad⟩
      | some mi =>
        have hL : find_matching_paths snapshot (r :: rest) =
            some ((vm.2 ++ mi.1).dedup,
              if vm.1 then mi.2 else r.pattern :: mi.2) := by
          simp [find_matching_paths, hs, hf]
        rw [hL]
        refine iff_of_false (by simp) ?_
        rintro ⟨-, hbad⟩
        exact absurd ((scan_paths_eq_none _ _).mpr hbad) (by rw [hs]; simp)

/-- C10: `find_matching_paths` tests a rule only against each cached path's
suffix after its first "/" (with backslashes turned into "/"); with at
least one rule it raises an index error exactly when some snapshot path has
no "/", so it is total on snapshots whose every path contains one (and
always total with no rules). -/
theorem C10_normalization_and_totality :
    (∀ p q : String, normalizePath p = some q ↔
      ∃ a b : List Char, p.toList = a ++ '/' :: b ∧ '/' ∉ a
        ∧ q = String.mk (replaceSep b))
    ∧ (∀ p : String, normalizePath p = none ↔ '/' ∉ p.toList)
    ∧ (∀ snapshot : List String, find_matching_paths snapshot [] = some ([], []))
    ∧ (∀ (snapshot : List String) (r : Rule) (rules : List Rule),
        find_matching_paths snapshot (r :: rules) = none ↔
          ∃ p ∈ snapshot, '/' ∉ p.toList)
    ∧ (∀ (snapshot : List String) (rules : List Rule),
        (∀ p ∈ snapshot, '/' ∈ p.toList) →
          (find_matching_paths snapshot rules).isSome) := by
  refine ⟨normalizePath_eq_some, normalizePath_eq_none, fun _ => rfl, ?_, ?_⟩
  · intro snapshot r rules
    rw [find_matching_paths_eq_none]
    simp only [ne_eq, List.cons_ne_nil, not_false_eq_true, true_and]
    constructor
    · rintro ⟨p, hp, hn⟩
      exact ⟨p, hp, (normalizePath_eq_none p).mp hn⟩
    · rintro ⟨p, hp, hn⟩
      exact ⟨p, hp, (normalizePath_eq_none p).mpr hn⟩
  · intro snapshot rules hall
    rw [Option.isSome_iff_ne_none]
    intro hnone
    obtain ⟨-, p, hp, hn⟩ := (find_matching_paths_eq_none _ _).mp hnone
    exact absurd (hall p hp) ((normalizePath_eq_none p).mp hn)

/-- Witness for C10 at a concrete snapshot and rule list. -/
theorem C10_normalization_and_totality_witness :
    (∀ p ∈ ["srv/docs\\readme.txt"], '/' ∈ p.toList)
    ∧ (find_matching_paths ["srv/docs\\readme.txt"] [⟨"docs/**"⟩]).isSome := by
  have hall : ∀ p ∈ ["srv/docs\\readme.txt"], '/' ∈ p.toList := by decide
  exact ⟨hall, C10_normalization_and_totality.2.2.2.2 _ [⟨"docs/**"⟩] hall⟩

theorem scan_paths_valid_flag (snapshot : List String) (pat : String)
    (v : Bool) (acc : List String)
    (h : scan_paths snapshot pat = some (v, acc)) :
    v = snapshot.any fun p =>
      match normalizePath p with
      | none => false
      | some np => globMatch np pat := by
  induction snapshot generalizing v acc with
  | nil =>
    have : (false, ([] : List String)) = (v, acc) := by simpa [scan_paths] using h
    obtain ⟨rfl, -⟩ := Prod.mk.injEq .. ▸ this
    simp
  | cons p rest ih =>
    cases hp : normalizePath p with
    | none =>
      have hL : scan_paths (p :: rest) pat = none := by simp [scan_paths, hp]
      rw [hL] at h; cases h
    | some np =>
      cases hs : scan_paths rest pat with
      | none =>
        have hL : scan_paths (p :: rest) pat = none := by simp [scan_paths, hp, hs]
        rw [hL] at h; cases h
      | some vm =>
        obtain ⟨v', acc'⟩ := vm
        have hL : scan_paths (p :: rest) pat =
            if globMatch np pat then some (true, p :: acc') else some (v', acc') := by
          simp [scan_paths, hp, hs]
        rw [hL] at h
        have hv' := ih v' acc' hs
        by_cases hm : globMatch np pat
        · rw [if_pos hm, Option.some.injEq, Prod.mk.injEq] at h
          obtain ⟨rfl, -⟩ := h
          simp [List.any_cons, hp, hm]
        · rw [if_neg hm, Option.some.injEq, Prod.mk.injEq] at h
          obtain ⟨rfl, -⟩ := h
          simp only [List.any_cons, hp]
          rw [show globMatch np pat = false from by simpa using hm]
          simpa using hv'

theorem find_matching_paths_invalid (snapshot : List String) (rules : List Rule)
    (mi : List String × List String)
    (h : find_matching_paths snapshot rules = some mi) :
    mi.2 = (rules.filter fun r => !rule_has_match snapshot r).map (·.pattern) := by
  induction rules generalizing mi with
  | nil =>
    have : (([], []) : List String × List String) = mi := by
      simpa [find_matching_paths] using h
    rw [← this]
    simp
  | cons r rest ih =>
    cases hs : scan_paths snapshot (stringReplaceSep r.pattern) with
    | none =>
      have hL : find_matching_paths snapshot (r :: rest) = none := by
        simp [find_matching_paths, hs]
      rw [hL] at h; cases h
    | some vm =>
      cases hf : find_matching_paths snapshot rest with
      | none =>
        have hL : find_matching_paths snapshot (r :: rest) = none := by
          simp [find_matching_paths, hs, hf]
        rw [hL] at h; cases h
      | some mi' =>
        have hL : find_matching_paths snapshot (r :: rest) =
            some ((vm.2 ++ mi'.1).dedup,
              if vm.1 then mi'.2 else r.pattern :: mi'.2) := by
          simp [find_matching_paths, hs, hf]
        rw [hL, Option.some.injEq] at h
        obtain ⟨v, acc⟩ := vm
        have hv : v = rule_has_match snapshot r :=
          scan_paths_valid_flag snapshot _ v acc hs
        have hrest := ih mi' hf
        rw [← h]
        simp only [List.filter_cons]
        cases hm : rule_has_match snapshot r with
        | true =>
          rw [hv, hm]
          simpa using hrest
        | false =>
          rw [hv, hm]
          simpa using congrArg (r.pattern :: ·) hrest

/-- C6 (counterexample): against a cached snapshot literally containing the
path "docs/readme.txt", normalization strips everything through the first
"/" and matches "docs/**" against "readme.txt" only, so rule validation
judges "docs/**" invalid — and the combined error for the two rules lists
both patterns, not exactly "missing/*". -/
theorem C6_counterexample :
    find_matching_paths ["docs/readme.txt"] [⟨"docs/**"⟩] = some ([], ["docs/**"])
    ∧ _remote_validation ["docs/readme.txt"] [⟨"docs/**"⟩, ⟨"missing/*"⟩] =
        some { is_valid := false
             , validation_message :=
                 "Following patterns do not match any path\x27docs/**, missing/*\x27" } := by
  exact ⟨rfl, rfl⟩

/-- C6 (amended): validity is judged against each cached path's normalized
form.  Against a snapshot whose path normalizes to "docs/readme.txt",
"docs/**" is valid, and adding "missing/*" makes the verdict invalid with
the error listing exactly "missing/*"; in general a rule's pattern is
absent from the invalid list iff it matches at least one normalized cached
path. -/
theorem C6_rule_validity :
    (_remote_validation ["srv/docs\\readme.txt"] [⟨"docs/**"⟩] =
        some { is_valid := true, validation_message := "" })
    ∧ (_remote_validation ["srv/docs\\readme.txt"] [⟨"docs/**"⟩, ⟨"missing/*"⟩] =
        some { is_valid := false
             , validation_message :=
                 "Following patterns do not match any path\x27missing/*\x27" })
    ∧ (∀ (snapshot : List String) (rules : List Rule)
        (mi : List String × List String),
        find_matching_paths snapshot rules = some mi →
          ∀ r ∈ rules, (r.pattern ∉ mi.2 ↔ rule_has_match snapshot r = true)) := by
  refine ⟨rfl, rfl, ?_⟩
  intro snapshot rules mi h r hr
  rw [find_matching_paths_invalid snapshot rules mi h]
  constructor
  · intro hnin
    cases hx : rule_has_match snapshot r with
    | true => rfl
    | false =>
      exact absurd (List.mem_map.mpr ⟨r, List.mem_filter.mpr ⟨hr, by simp [hx]⟩, rfl⟩)
        hnin
  · intro htrue hin
    obtain ⟨r', hr', hpat⟩ := List.mem_map.mp hin
    rw [List.mem_filter] at hr'
    have hrr : r' = r := by
      cases r; cases r'
      simpa using hpat
    rw [hrr] at hr'
    rw [htrue] at hr'
    simpa using hr'.2

/-- Witness for the general clause of C6_rule_validity at a concrete
snapshot, rule list and result. -/
theorem C6_rule_validity_witness :
    (Rule.mk "docs/**").pattern ∉
        (["srv/docs\\readme.txt"], ["missing/*"]).2 ↔
      rule_has_match ["srv/docs\\readme.txt"] ⟨"docs/**"⟩ = true :=
  C6_rule_validity.2.2 ["srv/docs\\readme.txt"] [⟨"docs/**"⟩, ⟨"missing/*"⟩]
    (["srv/docs\\readme.txt"], ["missing/*"]) rfl ⟨"docs/**"⟩ (by simp)

/-- C7: with advanced rules present, if every snapshot path normalizes (as
every walk path, which starts with the server/share prefix, does) and some
rule matches no path, `get_docs` raises the validation failure naming
exactly the patterns that matched no path, and yields no document. -/
theorem C7_invalid_rules_abort (s : NASState) (rules : List Rule)
    (hr : rules ≠ [])
    (hnorm : ∀ p ∈ s.directory_details, '/' ∈ p.toList)
    (hbad : ∃ r ∈ rules, rule_has_match s.directory_details r = false) :
    get_docs s (some rules) =
      Except.error (GetDocsErr.invalid_rules
        ((rules.filter fun r => !rule_has_match s.directory_details r).map
          (·.pattern))) := by
  have hsome : (find_matching_paths s.directory_details rules).isSome := by
    rw [Option.isSome_iff_ne_none]
    intro hnone
    obtain ⟨-, p, hp, hn⟩ := (find_matching_paths_eq_none _ _).mp hnone
    exact absurd (hnorm p hp) ((normalizePath_eq_none p).mp hn)
  obtain ⟨mi, hmi⟩ := Option.isSome_iff_exists.mp hsome
  have hinv := find_matching_paths_invalid _ _ mi hmi
  have hne : mi.2 ≠ [] := by
    rw [hinv]
    obtain ⟨r, hrmem, hrf⟩ := hbad
    intro hc
    rw [List.map_eq_nil_iff] at hc
    have : r ∈ rules.filter fun r => !rule_has_match s.directory_details r :=
      List.mem_filter.mpr ⟨hrmem, by simp [hrf]⟩
    rw [hc] at this
    exact absurd this (List.not_mem_nil r)
  have hempty : rules.isEmpty = false := by
    cases rules with
    | nil => exact absurd rfl hr
    | cons a l => rfl
  rw [← hinv]
  show (if rules.isEmpty then _ else _) = _
  rw [hempty]
  simp only [Bool.false_eq_true, if_false, hmi]
  rw [if_pos hne]

/-- Witness for C7 at a concrete state and a rule matching no path. -/
theorem C7_invalid_rules_abort_witness :
    get_docs ns1 (some [⟨"missing/*"⟩]) =
      Except.error (GetDocsErr.invalid_rules
        ((([⟨"missing/*"⟩] : List Rule).filter
            fun r => !rule_has_match ns1.directory_details r).map (·.pattern))) :=
  C7_invalid_rules_abort ns1 [⟨"missing/*"⟩] (by simp) (by decide)
    ⟨⟨"missing/*"⟩, by simp, by decide⟩

theorem decorate_path_ftype (s : NASState) (d : FileDoc) :
    (_decorate_with_access_control s d).path = d.path
    ∧ (_decorate_with_access_control s d).ftype = d.ftype := by
  unfold _decorate_with_access_control
  split <;> exact ⟨rfl, rfl⟩

theorem decorate_access_union (s : NASState) (d : FileDoc) :
    ((_decorate_with_access_control s d).access_control.getD []).toFinset =
      (d.access_control.getD []).toFinset ∪
        (get_entity_permission s d.path d.ftype).toFinset := by
  unfold _decorate_with_access_control
  by_cases h : _dls_enabled s
  · rw [if_pos h]
    show ((d.access_control.getD [] ++
        get_entity_permission s d.path d.ftype).dedup).toFinset = _
    apply Finset.ext
    intro x
    simp [List.mem_toFinset, List.mem_dedup, List.mem_append]
  · rw [if_neg h]
    have hperm : get_entity_permission s d.path d.ftype = [] := by
      unfold get_entity_permission
      rw [if_neg h]
    rw [hperm]
    simp

theorem get_files_access_control (s : NASState) (p : String) :
    ∀ f ∈ get_files s p, f.access_control = none := by
  intro f hf
  obtain ⟨e, -, rfl⟩ := List.mem_map.mp hf
  rfl

/-- C1 (amended): decoration computes the set-union of the pre-existing
access-control list and the freshly resolved permissions for the document's
own path; in the full-enumeration branch every yielded document carries
exactly that decoration (its pre-existing list being empty); the
advanced-rules branch yields its documents with no access-control
decoration at all. -/
theorem C1_dls_decoration (s : NASState) :
    (∀ d : FileDoc,
      ((_decorate_with_access_control s d).access_control.getD []).toFinset =
        (d.access_control.getD []).toFinset ∪
          (get_entity_permission s d.path d.ftype).toFinset)
    ∧ (∀ L, get_docs s none = Except.ok L →
        ∀ pr ∈ L, ((pr : FileDoc × Option FileDoc).1.access_control.getD
            []).toFinset =
          (get_entity_permission s pr.1.path pr.1.ftype).toFinset)
    ∧ (∀ rules : List Rule, rules ≠ [] →
        ∀ L, get_docs s (some rules) = Except.ok L →
          ∀ pr ∈ L, (pr : FileDoc × Option FileDoc).1.access_control = none) := by
  refine ⟨decorate_access_union s, ?_, ?_⟩
  · intro L hL pr hpr
    have hL' : (s.directory_details.flatMap fun p =>
        (get_files s p).map fun f =>
          if f.ftype = "folder" then (_decorate_with_access_control s f, none)
          else (_decorate_with_access_control s f,
            some (_decorate_with_access_control s f))) = L :=
      Except.ok.inj hL
    rw [← hL'] at hpr
    obtain ⟨p, hp, hpr2⟩ := List.mem_flatMap.mp hpr
    obtain ⟨f, hf, heq⟩ := List.mem_map.mp hpr2
    have hpr1 : pr.1 = _decorate_with_access_control s f := by
      rw [← heq]
      split <;> rfl
    rw [hpr1, (decorate_path_ftype s f).1, (decorate_path_ftype s f).2,
      decorate_access_union, get_files_access_control s p f hf]
    simp
  · intro rules hrules L hL pr hpr
    have hempty : rules.isEmpty = false := by
      cases rules with
      | nil => exact absurd rfl hrules
      | cons a l => rfl
    have hL0 : get_docs s (some rules) = Except.ok L := hL
    simp only [get_docs, hempty, Bool.false_eq_true, if_false] at hL0
    cases hfind : find_matching_paths s.directory_details rules with
    | none => rw [hfind] at hL0; cases hL0
    | some mi =>
      rw [hfind] at hL0
      simp only [] at hL0
      by_cases hne : mi.2 ≠ []
      · rw [if_pos hne] at hL0; cases hL0
      · rw [if_neg hne] at hL0
        have hL' : (mi.1.flatMap fun p =>
            (get_files s p).map fun f =>
              if f.ftype = "folder" then (f, none) else (f, some f)) = L :=
          Except.ok.inj hL0
        rw [← hL'] at hpr
        obtain ⟨p, hp, hpr2⟩ := List.mem_flatMap.mp hpr
        obtain ⟨f, hf, heq⟩ := List.mem_map.mp hpr2
        have hpr1 : pr.1 = f := by
          rw [← heq]
          split <;> rfl
        rw [hpr1]
        exact get_files_access_control s p f hf

/-- C1 (counterexample): with document-level security fully enabled and a
valid advanced rule, `get_docs` yields the matched file undecorated even
though fresh permissions resolve for its path — its access-control field is
absent rather than the union the claim states. -/
theorem C1_counterexample :
    _dls_enabled ns1 = true
    ∧ get_docs ns1 (some [⟨"docs/*"⟩]) = Except.ok [(nasF1, some nasF1)]
    ∧ nasF1.access_control = none
    ∧ get_entity_permission ns1 nasF1.path nasF1.ftype = [_prefix_sid "S-9"]
    ∧ _prefix_sid "S-9" ∉ nasF1.access_control.getD [] := by
  exact ⟨rfl, rfl, rfl, rfl, by decide⟩

/-- Witness for C1_dls_decoration at the concrete state `ns1`. -/
theorem C1_dls_decoration_witness :
    (((_decorate_with_access_control ns1 nasF1).access_control.getD
        []).toFinset =
      (nasF1.access_control.getD []).toFinset ∪
        (get_entity_permission ns1 nasF1.path nasF1.ftype).toFinset)
    ∧ (((_decorate_with_access_control ns1 nasF1).access_control.getD
        []).toFinset =
      (get_entity_permission ns1 (_decorate_with_access_control ns1 nasF1).path
        (_decorate_with_access_control ns1 nasF1).ftype).toFinset)
    ∧ nasF1.access_control = none :=
  ⟨(C1_dls_decoration ns1).1 nasF1,
   (C1_dls_decoration ns1).2.1
     [(_decorate_with_access_control ns1 nasF1,
        some (_decorate_with_access_control ns1 nasF1))] rfl
     (_decorate_with_access_control ns1 nasF1,
        some (_decorate_with_access_control ns1 nasF1)) (by simp),
   (C1_dls_decoration ns1).2.2 [⟨"docs/*"⟩] (by simp)
     [(nasF1, some nasF1)] rfl (nasF1, some nasF1) (by simp)⟩
